import Mathlib

/-!
Verification of the call_me real-time voice pipeline against its specification.
Python sources are shallowly embedded: dict-based configs become structures of
optional fields, mutable objects become explicit state passing, byte strings
become lists of naturals below 256, and `time.perf_counter()` becomes an
explicit clock argument.
-/

/-! ## Python string primitives -/

/-- Python whitespace predicate: the set of code points for which `str.isspace`
is true (also the set stripped by `str.strip()` and matched by the regex
class `\s`). -/
def pyIsSpace (c : Char) : Bool :=
  let n := c.toNat
  (9 ≤ n && n ≤ 13) || (28 ≤ n && n ≤ 31) || n == 32 || n == 0x85 || n == 0xa0 ||
    n == 0x1680 || (0x2000 ≤ n && n ≤ 0x200a) || n == 0x2028 || n == 0x2029 ||
    n == 0x202f || n == 0x205f || n == 0x3000

/-- Python `str.strip()` on a character list: drop whitespace from both ends. -/
def pyStripList (l : List Char) : List Char :=
  ((l.dropWhile pyIsSpace).reverse.dropWhile pyIsSpace).reverse

/-- Python `str.strip()` on a string. -/
def pyStrip (s : String) : String :=
  String.mk (pyStripList s.data)

/-! ## Session history (`SessionContext.append_history`, src/core/session_manager.py) -/

/-- One chat message, `{"role": ..., "content": ...}`. -/
structure Msg where
  role : String
  content : String
  deriving DecidableEq, Repr

/-- The `_history_limit` dataclass default. -/
def history_limit : Nat := 80

/-- Embedding of `SessionContext.append_history`: ignore empty content, append,
then delete the oldest `overflow` entries when the bound is exceeded. -/
def append_history (hist : List Msg) (role content : String) : List Msg :=
  if content = "" then hist
  else
    let nh := hist ++ [⟨role, content⟩]
    if nh.length > history_limit then nh.drop (nh.length - history_limit) else nh

/-! ## Prethink slot (`SessionContext`, src/core/session_manager.py) -/

/-- The prethink-relevant fields of `SessionContext`. `_prethink_hint_ready_at`
holds a `perf_counter` reading, modelled as an integer clock value. -/
structure PrethinkSession where
  prethink_job_id : Nat := 0
  prethink_hint : String := ""
  prethink_hint_ready_at : Int := 0
  prethink_hint_from_turn : Nat := 0
  deriving DecidableEq, Repr

/-- Embedding of `SessionContext.create_prethink_job`: bump the counter and
return the new job id. It does not touch the stored hint. -/
def create_prethink_job (s : PrethinkSession) : PrethinkSession × Nat :=
  ({ s with prethink_job_id := s.prethink_job_id + 1 }, s.prethink_job_id + 1)

/-- Embedding of `SessionContext.store_prethink_hint`; `now` stands for the
`time.perf_counter()` reading taken at the store. -/
def store_prethink_hint (s : PrethinkSession) (job_id : Nat) (hint : String)
    (source_turn_id : Nat) (now : Int) : PrethinkSession × Bool :=
  if hint = "" then (s, false)
  else if job_id ≠ s.prethink_job_id then (s, false)
  else
    ({ s with prethink_hint := hint, prethink_hint_ready_at := now,
              prethink_hint_from_turn := source_turn_id }, true)

/-- Embedding of `SessionContext.consume_prethink_hint`: return and clear the
hint (if any) together with its age and source turn; the job counter is not
consulted. -/
def consume_prethink_hint (s : PrethinkSession) (now : Int) :
    PrethinkSession × (String × Option Int × Option Nat) :=
  let hint := s.prethink_hint
  if hint = "" then (s, ("", none, none))
  else
    let age : Option Int :=
      if s.prethink_hint_ready_at > 0 then some (max 0 (now - s.prethink_hint_ready_at))
      else none
    let src : Option Nat :=
      if s.prethink_hint_from_turn = 0 then none else some s.prethink_hint_from_turn
    ({ s with prethink_hint := "", prethink_hint_ready_at := 0,
              prethink_hint_from_turn := 0 }, (hint, age, src))

/-! ## VAD engine (src/core/vad.py) -/

/-- The subset of the VAD config dict read by the state-machine parameters of
`VADManager.__init__`; `none` models an absent key. -/
structure VadConfig where
  speech_start_ms : Option Int := none
  speech_end_ms : Option Int := none
  min_utterance_ms : Option Int := none
  pre_start_silence_tolerance_ms : Option Int := none
  deriving DecidableEq, Repr

/-- The resolved state-machine parameters of a `VADManager`. -/
structure VADParams where
  speech_start_ms : Int
  speech_end_ms : Int
  min_utterance_ms : Int
  pre_start_silence_tolerance_ms : Int
  deriving DecidableEq, Repr

/-- Embedding of the parameter resolution in `VADManager.__init__`:
`config.get(key, default)` with the literal defaults of the constructor, and
the negative-tolerance clamp. -/
def vad_init (config : VadConfig) : VADParams :=
  { speech_start_ms := config.speech_start_ms.getD 150,
    speech_end_ms := config.speech_end_ms.getD 800,
    min_utterance_ms := config.min_utterance_ms.getD 50,
    pre_start_silence_tolerance_ms :=
      max 0 (config.pre_start_silence_tolerance_ms.getD 80) }

/-- The mutable VAD state of `VADManager`. -/
structure VADState where
  is_speech_active : Bool
  speech_duration_ms : Int
  silence_duration_ms : Int
  deriving DecidableEq, Repr

/-- Events returned by `VADManager.update_state`. -/
inductive VadEvent where
  | speechStart
  | speechEnd
  deriving DecidableEq, Repr

/-- Embedding of `VADManager.update_state`. -/
def update_state (p : VADParams) (s : VADState) (is_speech : Bool)
    (chunk_duration_ms : Int) : VADState × Option VadEvent :=
  if is_speech then
    let s1 : VADState :=
      { s with silence_duration_ms := 0,
               speech_duration_ms := s.speech_duration_ms + chunk_duration_ms }
    if !s1.is_speech_active ∧ s1.speech_duration_ms ≥ p.speech_start_ms then
      ({ s1 with is_speech_active := true }, some VadEvent.speechStart)
    else (s1, none)
  else
    if s.is_speech_active then
      let s1 : VADState :=
        { s with silence_duration_ms := s.silence_duration_ms + chunk_duration_ms }
      if s1.silence_duration_ms ≥ p.speech_end_ms then
        let ev : Option VadEvent :=
          if s1.speech_duration_ms ≥ p.min_utterance_ms then some VadEvent.speechEnd
          else none
        (⟨false, 0, 0⟩, ev)
      else (s1, none)
    else
      if s.speech_duration_ms > 0 then
        let s1 : VADState :=
          { s with silence_duration_ms := s.silence_duration_ms + chunk_duration_ms }
        if s1.silence_duration_ms > p.pre_start_silence_tolerance_ms then
          ({ s1 with speech_duration_ms := 0, silence_duration_ms := 0 }, none)
        else (s1, none)
      else ({ s with silence_duration_ms := 0 }, none)

/-! ## Claim theorems: C2, C3, C5, C8 -/

/-- C2 counterexample: a hint stored under job id 1 (store succeeds while the
counter is 1) survives `create_prethink_job` moving the counter to 2, so the
slot holds a non-empty hint while the counter differs from the stored job id,
and `consume_prethink_hint` still returns that hint. This refutes the claim
that creation invalidates the slot and that a hint stored under J is never
consumed once the counter passed J. -/
theorem c2_prethink_slot_cex :
    let s1 := (create_prethink_job {}).1
    let stored := store_prethink_hint s1 1 "hi" 7 100
    let s3 := (create_prethink_job stored.1).1
    stored.2 = true ∧
    s3.prethink_hint = "hi" ∧
    s3.prethink_job_id = 2 ∧ (2 : Nat) ≠ 1 ∧
    (consume_prethink_hint s3 250).2.1 = "hi" := by
  decide

/-- C2 amended: the staleness guard lives in `store_prethink_hint`, not in job
creation. A store succeeds exactly when the hint is non-empty and its job id
equals the current counter; `create_prethink_job` bumps the counter but leaves
any stored hint in place; `consume_prethink_hint` returns and clears whatever
hint is present regardless of the counter. -/
theorem c2_prethink_slot_amended (s : PrethinkSession) (j src : Nat)
    (hint : String) (now : Int) :
    ((store_prethink_hint s j hint src now).2 = true ↔
      hint ≠ "" ∧ j = s.prethink_job_id) ∧
    (create_prethink_job s).1.prethink_hint = s.prethink_hint ∧
    (create_prethink_job s).1.prethink_job_id = s.prethink_job_id + 1 ∧
    (consume_prethink_hint s now).1.prethink_hint = "" ∧
    (consume_prethink_hint s now).2.1 = s.prethink_hint := by
  unfold store_prethink_hint create_prethink_job consume_prethink_hint
  refine ⟨?_, rfl, rfl, ?_, ?_⟩
  · constructor
    · intro h
      by_cases h1 : hint = "" <;> by_cases h2 : j = s.prethink_job_id <;>
        simp [h1, h2] at h ⊢
    · rintro ⟨h1, h2⟩
      simp [h1, h2]
  · by_cases h : s.prethink_hint = "" <;> simp [h]
  · by_cases h : s.prethink_hint = "" <;> simp [h]

/-- C3 counterexample: with a config dict that does not set `speech_end_ms`,
`VADManager.__init__` resolves `speech_end_ms` to 800 ms, not 400 ms. -/
theorem c3_vad_default_cex :
    (vad_init {}).speech_end_ms = 800 ∧ (800 : Int) ≠ 400 := by
  decide

/-- C3 amended: when the VAD configuration does not set `speech_end_ms`,
`VADManager` uses 800 ms as the value of `speech_end_ms` (the 400 ms default
lives only in the plugin config schema, a separate layer). -/
theorem c3_vad_default (cfg : VadConfig) (h : cfg.speech_end_ms = none) :
    (vad_init cfg).speech_end_ms = 800 := by
  simp [vad_init, h]

theorem c3_vad_default_witness : (vad_init {}).speech_end_ms = 800 :=
  c3_vad_default {} rfl

/-- C5: a short speech burst is swallowed. Whenever the accumulated speech
duration is below `min_utterance_ms`, `update_state` never returns the `end`
event; and at the very call where the in-speech silence accumulation crosses
`speech_end_ms`, the state is reset to inactive with zero durations and no
event is emitted. -/
theorem c5_vad_short_swallow (p : VADParams) (s : VADState) (is_speech : Bool)
    (d : Int) (h_short : s.speech_duration_ms < p.min_utterance_ms) :
    (update_state p s is_speech d).2 ≠ some VadEvent.speechEnd ∧
    (is_speech = false → s.is_speech_active = true →
      p.speech_end_ms ≤ s.silence_duration_ms + d →
      update_state p s is_speech d = (⟨false, 0, 0⟩, none)) := by
  constructor
  · unfold update_state
    dsimp only
    split
    · split <;> simp
    · split
      · split
        · have hlt : ¬ (s.speech_duration_ms ≥ p.min_utterance_ms) := by omega
          simp [hlt]
        · simp
      · split
        · split <;> simp
        · simp
  · intro h1 h2 h3
    have hlt : ¬ (s.speech_duration_ms ≥ p.min_utterance_ms) := by omega
    simp [update_state, h1, h2, h3, hlt]

theorem c5_vad_short_swallow_witness :
    ((20 : Int) < 50) ∧
    ((update_state (⟨150, 800, 50, 80⟩ : VADParams) (⟨true, 20, 790⟩ : VADState) false 20).2 ≠
        some VadEvent.speechEnd ∧
      (false = false → (true : Bool) = true → (800 : Int) ≤ 790 + 20 →
        update_state (⟨150, 800, 50, 80⟩ : VADParams) (⟨true, 20, 790⟩ : VADState) false 20 =
          ((⟨false, 0, 0⟩ : VADState), none))) :=
  ⟨by decide,
    c5_vad_short_swallow (⟨150, 800, 50, 80⟩ : VADParams) (⟨true, 20, 790⟩ : VADState)
      false 20 (by decide)⟩

/-- C8: after every `append_history` call starting from a history within the
bound, the history stays within 80 messages, and on a non-empty append the
result is exactly the suffix of `history ++ [new]` keeping the most recent
messages (oldest dropped first). -/
theorem c8_history_bound (hist : List Msg) (role content : String)
    (h : hist.length ≤ 80) :
    (append_history hist role content).length ≤ 80 ∧
    (content ≠ "" →
      append_history hist role content =
        (hist ++ [(⟨role, content⟩ : Msg)]).drop (hist.length + 1 - 80)) := by
  unfold append_history history_limit
  by_cases hc : content = ""
  · simp [hc, h]
  · simp only [hc, if_false]
    constructor
    · split
      · rw [List.length_drop]
        simp only [List.length_append, List.length_singleton]
        omega
      · rename_i hle
        simp only [gt_iff_lt, not_lt, List.length_append, List.length_singleton] at hle
        simpa using hle
    · intro _
      split
      · simp only [List.length_append, List.length_singleton]
      · rename_i hle
        simp only [gt_iff_lt, not_lt, List.length_append, List.length_singleton] at hle
        have h0 : hist.length + 1 - 80 = 0 := by omega
        rw [h0, List.drop_zero]

theorem c8_history_bound_witness :
    (([] : List Msg).length ≤ 80) ∧
    ((append_history [] "user" "hi").length ≤ 80 ∧
      (("hi" : String) ≠ "" →
        append_history [] "user" "hi" =
          (([] : List Msg) ++ [(⟨"user", "hi"⟩ : Msg)]).drop (([] : List Msg).length + 1 - 80))) :=
  ⟨by simp, c8_history_bound [] "user" "hi" (by simp)⟩

/-! ## Audio bytes and WAV framing (src/utils/audio.py, src/websocket_handler.py) -/

/-- Bytes are naturals below 256; byte strings are lists of bytes. -/
abbrev Byte := Nat

/-- Little-endian interpretation of a byte list, `int.from_bytes(l, "little")`. -/
def leNat (l : List Byte) : Nat :=
  l.foldr (fun b acc => b + 256 * acc) 0

/-- Two-byte little-endian encoding of a value. -/
def le16 (n : Nat) : List Byte := [n % 256, n / 256 % 256]

/-- Four-byte little-endian encoding of a value. -/
def le32 (n : Nat) : List Byte :=
  [n % 256, n / 256 % 256, n / 256 ^ 2 % 256, n / 256 ^ 3 % 256]

/-- The ASCII bytes of `RIFF`. -/
def bRIFF : List Byte := [82, 73, 70, 70]

/-- The ASCII bytes of `WAVE`. -/
def bWAVE : List Byte := [87, 65, 86, 69]

/-- Embedding of `_is_wav_bytes`: at least 12 bytes, `RIFF` magic and `WAVE`
form tag. -/
def is_wav_bytes (payload : List Byte) : Bool :=
  12 ≤ payload.length && payload.take 4 == bRIFF && (payload.drop 8).take 4 == bWAVE

/-- Embedding of `_strip_empty_wav_header_prefix`: drop the first 44 bytes when
they form a header-only WAV (`riff_size == 36` and `data_size == 0`); the flag
reports whether something was stripped. -/
def strip_empty_wav_header (payload : List Byte) : List Byte × Bool :=
  if ¬ (is_wav_bytes payload = true) ∨ payload.length < 44 then (payload, false)
  else
    let riff_size := leNat ((payload.drop 4).take 4)
    let data_size := leNat ((payload.drop 40).take 4)
    if riff_size = 36 ∧ data_size = 0 then (payload.drop 44, true) else (payload, false)

/-- Embedding of `pcm16_to_wav_bytes`: the 44-byte RIFF/WAVE header written by
the `wave` module (PCM format 1, sample width 2) followed by the raw data. -/
def pcm16_to_wav_bytes (pcm_data : List Byte) (sample_rate : Nat) (channels : Nat) : List Byte :=
  bRIFF ++ le32 (36 + pcm_data.length) ++ bWAVE ++
    [102, 109, 116, 32] ++ le32 16 ++ le16 1 ++ le16 channels ++
    le32 sample_rate ++ le32 (sample_rate * channels * 2) ++
    le16 (channels * 2) ++ le16 16 ++
    [100, 97, 116, 97] ++ le32 pcm_data.length ++ pcm_data

/-- Embedding of `_to_playable_wav_chunk`: pass well-formed WAV through
(dropping any carry), strip a header-only WAV, and wrap PCM bytes into a WAV
keeping an odd trailing byte as the next carry. -/
def to_playable_wav_chunk (chunk_bytes : List Byte) (sample_rate : Nat)
    (channels : Nat) (pcm_carry : List Byte) : List Byte × List Byte :=
  if chunk_bytes = [] then ([], pcm_carry)
  else
    let norm := strip_empty_wav_header chunk_bytes
    let chunk1 := if norm.2 then norm.1 else chunk_bytes
    if norm.2 ∧ chunk1 = [] then ([], [])
    else if ¬ (norm.2 = true) ∧ is_wav_bytes chunk_bytes = true then (chunk_bytes, [])
    else
      let pcm := pcm_carry ++ chunk1
      if pcm.length < 2 then ([], pcm)
      else
        let next_carry := if pcm.length % 2 = 1 then pcm.drop (pcm.length - 1) else []
        let pcm2 := if pcm.length % 2 = 1 then pcm.take (pcm.length - 1) else pcm
        if pcm2 = [] then ([], next_carry)
        else (pcm16_to_wav_bytes pcm2 sample_rate channels, next_carry)

/-- A 44-byte header-only WAV frame: `RIFF`, riff size 36, `WAVE`, and zeros
through the data-size field. -/
def emptyHeader44 : List Byte := bRIFF ++ le32 36 ++ bWAVE ++ List.replicate 32 0

/-- A strip that did not fire returns its input unchanged. -/
lemma strip_empty_wav_header_of_flag_false (l : List Byte)
    (h : (strip_empty_wav_header l).2 = false) :
    (strip_empty_wav_header l).1 = l := by
  by_cases h1 : (¬ (is_wav_bytes l = true) ∨ l.length < 44)
  · unfold strip_empty_wav_header
    rw [if_pos h1]
  · by_cases h2 : (leNat ((l.drop 4).take 4) = 36 ∧ leNat ((l.drop 40).take 4) = 0)
    · exfalso
      unfold strip_empty_wav_header at h
      rw [if_neg h1] at h
      dsimp only at h
      rw [if_pos h2] at h
      simp at h
    · unfold strip_empty_wav_header
      rw [if_neg h1]
      dsimp only
      rw [if_neg h2]

/-- C4 counterexample: for a payload made of two concatenated header-only WAV
frames, stripping twice removes both headers while stripping once leaves the
second one, so the strip is not idempotent on every byte string. -/
theorem c4_strip_idempotent_cex :
    (strip_empty_wav_header (strip_empty_wav_header (emptyHeader44 ++ emptyHeader44)).1).1 ≠
      (strip_empty_wav_header (emptyHeader44 ++ emptyHeader44)).1 := by
  decide

/-- C4 amended: stripping twice yields the same payload as stripping once
whenever the once-stripped payload does not itself begin with a header-only
WAV frame (the second strip does not fire); a payload whose remainder is again
a header-only frame is stripped a second time. -/
theorem c4_strip_idempotent (b : List Byte)
    (h : (strip_empty_wav_header (strip_empty_wav_header b).1).2 = false) :
    (strip_empty_wav_header (strip_empty_wav_header b).1).1 =
      (strip_empty_wav_header b).1 :=
  strip_empty_wav_header_of_flag_false _ h

theorem c4_strip_idempotent_witness :
    ((strip_empty_wav_header (strip_empty_wav_header (emptyHeader44 ++ [1, 2, 3, 4])).1).2 = false) ∧
    (strip_empty_wav_header (strip_empty_wav_header (emptyHeader44 ++ [1, 2, 3, 4])).1).1 =
      (strip_empty_wav_header (emptyHeader44 ++ [1, 2, 3, 4])).1 :=
  ⟨by decide, c4_strip_idempotent (emptyHeader44 ++ [1, 2, 3, 4]) (by decide)⟩

/-- C10: for every chunk and every incoming carry of at most one byte,
`_to_playable_wav_chunk` returns a carry of at most one byte; every non-empty
payload is either the untouched well-formed WAV chunk or a WAV wrapping a
non-empty even number of PCM bytes; and a chunk recognized as well-formed WAV
(no header-only strip fired) passes through unchanged with an empty carry. -/
theorem c10_pcm_carry (chunk : List Byte) (sr ch : Nat) (carry : List Byte)
    (h : carry.length ≤ 1) :
    (to_playable_wav_chunk chunk sr ch carry).2.length ≤ 1 ∧
    ((to_playable_wav_chunk chunk sr ch carry).1 ≠ [] →
      to_playable_wav_chunk chunk sr ch carry = (chunk, []) ∨
      ∃ pcm : List Byte, pcm ≠ [] ∧ pcm.length % 2 = 0 ∧
        (to_playable_wav_chunk chunk sr ch carry).1 = pcm16_to_wav_bytes pcm sr ch) ∧
    ((strip_empty_wav_header chunk).2 = false → is_wav_bytes chunk = true →
      to_playable_wav_chunk chunk sr ch carry = (chunk, [])) := by
  unfold to_playable_wav_chunk
  by_cases hnil : chunk = []
  · refine ⟨?_, ?_, ?_⟩ <;> simp [hnil] at h ⊢
    · exact h
    · intro hflag hwav
      simp [is_wav_bytes] at hwav
  · simp only [hnil, if_false]
    by_cases hs : (strip_empty_wav_header chunk).2 = true ∧
        (if (strip_empty_wav_header chunk).2 then (strip_empty_wav_header chunk).1 else chunk) = []
    · rw [if_pos hs]
      refine ⟨by simp, by simp, ?_⟩
      intro hflag _
      rw [hflag] at hs
      simp at hs
    · rw [if_neg hs]
      by_cases hw : ¬ ((strip_empty_wav_header chunk).2 = true) ∧ is_wav_bytes chunk = true
      · rw [if_pos hw]
        exact ⟨by simp, fun _ => Or.inl rfl, fun _ _ => rfl⟩
      · rw [if_neg hw]
        have hflagfact : (strip_empty_wav_header chunk).2 = false → is_wav_bytes chunk = true → False := by
          intro hflag hwav
          exact hw ⟨by simp [hflag], hwav⟩
        set chunk1 := (if (strip_empty_wav_header chunk).2 then (strip_empty_wav_header chunk).1 else chunk) with hchunk1
        set pcm := carry ++ chunk1 with hpcm
        by_cases hlen : pcm.length < 2
        · rw [if_pos hlen]
          refine ⟨by dsimp only; omega, by simp, fun hflag hwav => absurd (hflagfact hflag hwav) not_false⟩
        · rw [if_neg hlen]
          by_cases hodd : pcm.length % 2 = 1
          · simp only [hodd, if_true]
            have hlen3 : 3 ≤ pcm.length := by omega
            have htake : (pcm.take (pcm.length - 1)).length = pcm.length - 1 := by
              simp [List.length_take]
            have hne : pcm.take (pcm.length - 1) ≠ [] := by
              intro hcon
              rw [hcon] at htake
              simp at htake
              omega
            rw [if_neg hne]
            refine ⟨?_, ?_, fun hflag hwav => absurd (hflagfact hflag hwav) not_false⟩
            · simp [List.length_drop]
              omega
            · intro _
              refine Or.inr ⟨pcm.take (pcm.length - 1), hne, ?_, rfl⟩
              rw [htake]
              omega
          · simp only [hodd, if_false]
            have hne : pcm ≠ [] := by
              intro hcon
              rw [hcon] at hlen
              simp at hlen
            rw [if_neg hne]
            refine ⟨by simp, ?_, fun hflag hwav => absurd (hflagfact hflag hwav) not_false⟩
            intro _
            exact Or.inr ⟨pcm, hne, by omega, rfl⟩

theorem c10_pcm_carry_witness :
    (([5] : List Byte).length ≤ 1) ∧
    ((to_playable_wav_chunk [1, 2, 3] 24000 1 [5]).2.length ≤ 1 ∧
      ((to_playable_wav_chunk [1, 2, 3] 24000 1 [5]).1 ≠ [] →
        to_playable_wav_chunk [1, 2, 3] 24000 1 [5] = ([1, 2, 3], []) ∨
        ∃ pcm : List Byte, pcm ≠ [] ∧ pcm.length % 2 = 0 ∧
          (to_playable_wav_chunk [1, 2, 3] 24000 1 [5]).1 = pcm16_to_wav_bytes pcm 24000 1) ∧
      ((strip_empty_wav_header [1, 2, 3]).2 = false → is_wav_bytes [1, 2, 3] = true →
        to_playable_wav_chunk [1, 2, 3] 24000 1 [5] = ([1, 2, 3], []))) :=
  ⟨by decide, c10_pcm_carry [1, 2, 3] 24000 1 [5] (by decide)⟩

/-! ## Text chunker (src/core/text_chunker.py) -/

/-- The class of STRONG delimiters of `TextChunker` (matched one character at
a time, so the regex class reduces to character membership). -/
def isStrongDelim (c : Char) : Bool :=
  c == '。' || c == '！' || c == '？' || c == '!' || c == '?' || c == '\n' ||
    c == '~' || c == '～' || c == '…' || c == '—'

/-- The class of WEAK delimiters of `TextChunker`. -/
def isWeakDelim (c : Char) : Bool :=
  c == '，' || c == ',' || c == '；' || c == ';' || c == '：' || c == ':'

/-- The mutable state of a `TextChunker`. -/
structure ChunkerState where
  buffer : List Char := []
  seq_id : Nat := 0
  deriving DecidableEq, Repr

/-- One emitted `(seq, text, is_final)` triple. -/
structure Chunk where
  seq : Nat
  text : String
  isFinal : Bool
  deriving DecidableEq, Repr

/-- Embedding of the per-character body of `TextChunker.process`: append the
character to the buffer, then flush on a strong delimiter (when the stripped
buffer is non-empty), on reaching `max_chunk_size`, or on a weak delimiter past
`min_chunk_size`. -/
def chunk_step (mn mx : Nat) (st : ChunkerState) (c : Char) :
    ChunkerState × List Chunk :=
  let buf := st.buffer ++ [c]
  if isStrongDelim c then
    if pyStripList buf ≠ [] then
      (⟨[], st.seq_id + 1⟩, [⟨st.seq_id, String.mk (pyStripList buf), true⟩])
    else (⟨buf, st.seq_id⟩, [])
  else if mx ≤ buf.length then
    (⟨[], st.seq_id + 1⟩, [⟨st.seq_id, String.mk (pyStripList buf), false⟩])
  else if isWeakDelim c ∧ mn < buf.length then
    (⟨[], st.seq_id + 1⟩, [⟨st.seq_id, String.mk (pyStripList buf), false⟩])
  else (⟨buf, st.seq_id⟩, [])

/-- `TextChunker.process` on a character list, collecting the emitted chunks. -/
def chunk_run (mn mx : Nat) (st : ChunkerState) : List Char → ChunkerState × List Chunk
  | [] => (st, [])
  | c :: cs =>
    let r1 := chunk_step mn mx st c
    let r2 := chunk_run mn mx r1.1 cs
    (r2.1, r1.2 ++ r2.2)

/-- `TextChunker.process` on one input string. -/
def chunk_process (mn mx : Nat) (st : ChunkerState) (s : String) :
    ChunkerState × List Chunk :=
  chunk_run mn mx st s.data

/-- Embedding of `TextChunker.flush`: emit the stripped residual buffer when
non-empty, then clear the buffer. -/
def chunk_flush (st : ChunkerState) : ChunkerState × List Chunk :=
  if pyStripList st.buffer ≠ [] then
    (⟨[], st.seq_id + 1⟩, [⟨st.seq_id, String.mk (pyStripList st.buffer), true⟩])
  else (⟨[], st.seq_id⟩, [])

/-- Feeding a sequence of strings to `TextChunker.process` in order. -/
def chunk_feed_all (mn mx : Nat) (st : ChunkerState) : List String → ChunkerState × List Chunk
  | [] => (st, [])
  | s :: rest =>
    let r1 := chunk_process mn mx st s
    let r2 := chunk_feed_all mn mx r1.1 rest
    (r2.1, r1.2 ++ r2.2)

/-- The non-whitespace characters of a character list, in order. -/
def nonWsOf (l : List Char) : List Char :=
  l.filter (fun c => !pyIsSpace c)

/-- The concatenation of the texts of a chunk list, in emission (seq) order. -/
def chunksText : List Chunk → List Char
  | [] => []
  | k :: ks => k.text.data ++ chunksText ks

lemma filter_dropWhile_not {α : Type} (p : α → Bool) (l : List α) :
    (l.dropWhile p).filter (fun c => !p c) = l.filter (fun c => !p c) := by
  induction l with
  | nil => rfl
  | cons a l ih =>
    by_cases hp : p a = true
    · rw [List.dropWhile_cons, if_pos hp, ih, List.filter_cons]
      simp [hp]
    · rw [List.dropWhile_cons, if_neg hp]

lemma nonWsOf_strip (l : List Char) : nonWsOf (pyStripList l) = nonWsOf l := by
  unfold pyStripList nonWsOf
  rw [List.filter_reverse, filter_dropWhile_not, List.filter_reverse,
    filter_dropWhile_not, List.reverse_reverse]

lemma nonWsOf_append (l1 l2 : List Char) :
    nonWsOf (l1 ++ l2) = nonWsOf l1 ++ nonWsOf l2 := by
  unfold nonWsOf
  exact List.filter_append l1 l2

lemma chunksText_append (o1 o2 : List Chunk) :
    chunksText (o1 ++ o2) = chunksText o1 ++ chunksText o2 := by
  induction o1 with
  | nil => rfl
  | cons k ks ih => simp [chunksText, ih]

lemma chunk_step_inv (mn mx : Nat) (st : ChunkerState) (c : Char) :
    nonWsOf (chunksText (chunk_step mn mx st c).2 ++ (chunk_step mn mx st c).1.buffer) =
      nonWsOf (st.buffer ++ [c]) := by
  unfold chunk_step
  dsimp only
  split
  · split
    · simp [chunksText, nonWsOf_strip]
    · simp [chunksText]
  · split
    · simp [chunksText, nonWsOf_strip]
    · split
      · simp [chunksText, nonWsOf_strip]
      · simp [chunksText]

lemma chunk_run_inv (mn mx : Nat) (cs : List Char) (st : ChunkerState) :
    nonWsOf (chunksText (chunk_run mn mx st cs).2 ++ (chunk_run mn mx st cs).1.buffer) =
      nonWsOf (st.buffer ++ cs) := by
  induction cs generalizing st with
  | nil => simp [chunk_run, chunksText]
  | cons c cs ih =>
    dsimp only [chunk_run]
    have h1 := chunk_step_inv mn mx st c
    have h2 := ih (chunk_step mn mx st c).1
    rw [chunksText_append, List.append_assoc, nonWsOf_append, h2, ← nonWsOf_append,
      ← List.append_assoc, nonWsOf_append _ cs, h1, ← nonWsOf_append,
      List.append_assoc, List.singleton_append]

lemma chunk_feed_all_inv (mn mx : Nat) (inputs : List String) (st : ChunkerState) :
    nonWsOf (chunksText (chunk_feed_all mn mx st inputs).2 ++
        (chunk_feed_all mn mx st inputs).1.buffer) =
      nonWsOf (st.buffer ++ (inputs.map String.data).flatten) := by
  induction inputs generalizing st with
  | nil => simp [chunk_feed_all, chunksText]
  | cons s rest ih =>
    dsimp only [chunk_feed_all, List.map, List.flatten]
    have h1 := chunk_run_inv mn mx s.data st
    have h2 := ih (chunk_process mn mx st s).1
    rw [chunksText_append, List.append_assoc, nonWsOf_append, h2, ← nonWsOf_append,
      ← List.append_assoc, nonWsOf_append _ (List.map String.data rest).flatten]
    unfold chunk_process
    rw [h1, ← nonWsOf_append, List.append_assoc]

/-- C1: feeding any finite sequence of strings to `TextChunker.process` in
order and then calling `flush` once emits chunks whose concatenated texts, in
seq order, carry exactly the non-whitespace characters of the concatenated
input, in order: nothing is lost, duplicated or reordered, and only leading or
trailing whitespace of each buffered piece is removed. -/
theorem c1_chunker_reconstruction (mn mx : Nat) (inputs : List String) :
    nonWsOf (chunksText ((chunk_feed_all mn mx {} inputs).2 ++
        (chunk_flush (chunk_feed_all mn mx {} inputs).1).2)) =
      nonWsOf ((inputs.map String.data).flatten) := by
  rw [chunksText_append, nonWsOf_append]
  have hflush : nonWsOf (chunksText (chunk_flush (chunk_feed_all mn mx {} inputs).1).2) =
      nonWsOf (chunk_feed_all mn mx {} inputs).1.buffer := by
    unfold chunk_flush
    split
    · simp [chunksText, nonWsOf_strip]
    · rename_i hempty
      rw [not_ne_iff] at hempty
      have h2 : nonWsOf (chunk_feed_all mn mx {} inputs).1.buffer = [] := by
        rw [← nonWsOf_strip, hempty]
        rfl
      rw [h2]
      rfl
  rw [hflush, ← nonWsOf_append, chunk_feed_all_inv]
  rfl

/-! ## LLM model selection (`LLMAdapter.generate_stream`, src/core/llm_adapter.py) -/

/-- Python substring containment `pat in l` on character lists. -/
def isSubList (pat : List Char) : List Char → Bool
  | [] => pat.isEmpty
  | c :: t => pat.isPrefixOf (c :: t) || isSubList pat t

/-- Dict lookup `models[candidate]` / membership `candidate in models`; the
dict is modelled as an association list in insertion order with unique keys. -/
def lookup_model {α : Type} (models : List (String × α)) (c : String) : Option α :=
  (models.find? (fun kv => kv.1 == c)).map (fun kv => kv.2)

/-- The fuzzy pass of the selection loop: the first model whose key contains
the candidate as a substring, in dict iteration order. -/
def substr_match {α : Type} (models : List (String × α)) (c : String) : Option α :=
  (models.find? (fun kv => isSubList c.data kv.1.data)).map (fun kv => kv.2)

/-- One candidate's match: exact key first, then substring. -/
def first_match {α : Type} (models : List (String × α)) (c : String) : Option α :=
  match lookup_model models c with
  | some cfg => some cfg
  | none => substr_match models c

/-- Python `str.split(";")` on a character list. -/
def splitSemi : List Char → List (List Char)
  | [] => [[]]
  | c :: t =>
    match splitSemi t with
    | [] => [[c]]
    | h :: r => if c = ';' then [] :: h :: r else (c :: h) :: r

/-- Splitting `model_name` on `;`, stripping entries and dropping empties. -/
def parse_candidates (name : String) : List String :=
  ((splitSemi name.data).map (fun l => String.mk (pyStripList l))).filter
    (fun s => s ≠ "")

/-- The candidate loop of `generate_stream`: first candidate with a match. -/
def find_candidate {α : Type} (models : List (String × α)) : List String → Option α
  | [] => none
  | c :: cs =>
    match first_match models c with
    | some cfg => some cfg
    | none => find_candidate models cs

/-- The full model resolution of `generate_stream`: candidate loop, then the
`replyer` fallback, then the first configured model. -/
def resolve_target {α : Type} (models : List (String × α)) (name : String) : Option α :=
  match find_candidate models (parse_candidates name) with
  | some cfg => some cfg
  | none =>
    match lookup_model models "replyer" with
    | some cfg => some cfg
    | none => models.head?.map (fun kv => kv.2)

/-- The error token yielded when no model is configured. -/
def error_token : String := "【Error: No LLM model available】"

/-- The selection phase of `generate_stream` as a stream of text chunks: with
no resolvable model the stream is the single error token; otherwise the rest
of the generation (abstracted as `body`) runs on the resolved config. -/
def generate_stream_select {α : Type} (models : List (String × α)) (name : String)
    (body : α → List String) : List String :=
  match resolve_target models name with
  | none => [error_token]
  | some cfg => body cfg

lemma find_candidate_append_none {α : Type} (models : List (String × α))
    (pre l : List String) (h : ∀ c ∈ pre, first_match models c = none) :
    find_candidate models (pre ++ l) = find_candidate models l := by
  induction pre with
  | nil => rfl
  | cons c cs ih =>
    have hc : first_match models c = none := h c (List.mem_cons_self c cs)
    dsimp only [find_candidate, List.cons_append]
    rw [hc]
    exact ih (fun x hx => h x (List.mem_cons_of_mem c hx))

lemma find_candidate_none {α : Type} (models : List (String × α))
    (l : List String) (h : ∀ c ∈ l, first_match models c = none) :
    find_candidate models l = none := by
  have := find_candidate_append_none models l [] h
  rw [List.append_nil] at this
  rw [this]
  rfl

/-- C7: `generate_stream` resolves the model by trying the semicolon-separated
candidates in order, each with an exact key match before a substring match;
when no candidate matches it falls back to the `replyer` key, then to the
first configured model; and with no configured model at all the stream is
exactly one error token. -/
theorem c7_llm_model_selection {α : Type} (models : List (String × α))
    (name : String) (body : α → List String) :
    (∀ c cfg, lookup_model models c = some cfg → first_match models c = some cfg) ∧
    (∀ c, lookup_model models c = none → first_match models c = substr_match models c) ∧
    (∀ pre c post cfg, parse_candidates name = pre ++ c :: post →
      (∀ x ∈ pre, first_match models x = none) → first_match models c = some cfg →
      resolve_target models name = some cfg) ∧
    ((∀ c ∈ parse_candidates name, first_match models c = none) →
      ∀ cfg, lookup_model models "replyer" = some cfg →
      resolve_target models name = some cfg) ∧
    ((∀ c ∈ parse_candidates name, first_match models c = none) →
      lookup_model models "replyer" = none →
      resolve_target models name = models.head?.map (fun kv => kv.2)) ∧
    (models = [] → generate_stream_select models name body = [error_token]) := by
  refine ⟨?_, ?_, ?_, ?_, ?_, ?_⟩
  · intro c cfg h
    unfold first_match
    rw [h]
  · intro c h
    unfold first_match
    rw [h]
  · intro pre c post cfg hsplit hpre hc
    unfold resolve_target
    rw [hsplit, find_candidate_append_none models pre _ hpre]
    dsimp only [find_candidate]
    rw [hc]
  · intro hall cfg hrep
    unfold resolve_target
    rw [find_candidate_none models _ hall, hrep]
  · intro hall hrep
    unfold resolve_target
    rw [find_candidate_none models _ hall, hrep]
  · intro hm
    subst hm
    have h1 : find_candidate ([] : List (String × α)) (parse_candidates name) = none := by
      apply find_candidate_none
      intro c _
      rfl
    unfold generate_stream_select resolve_target
    rw [h1]
    rfl

theorem c7_llm_model_selection_witness :
    resolve_target [("utils.gemini", 1), ("replyer", 2)] "foo;gemini" = some 1 :=
  (c7_llm_model_selection [("utils.gemini", 1), ("replyer", 2)] "foo;gemini"
      (fun _ => [])).2.2.1 ["foo"] "gemini" [] 1 (by decide) (by decide) (by decide)

theorem c2_prethink_slot_amended_witness :
    ((store_prethink_hint (⟨3, "", 0, 0⟩ : PrethinkSession) 3 "x" 5 9).2 = true ↔
      ("x" : String) ≠ "" ∧ 3 = (⟨3, "", 0, 0⟩ : PrethinkSession).prethink_job_id) ∧
    (create_prethink_job (⟨3, "", 0, 0⟩ : PrethinkSession)).1.prethink_hint =
      (⟨3, "", 0, 0⟩ : PrethinkSession).prethink_hint ∧
    (create_prethink_job (⟨3, "", 0, 0⟩ : PrethinkSession)).1.prethink_job_id =
      (⟨3, "", 0, 0⟩ : PrethinkSession).prethink_job_id + 1 ∧
    (consume_prethink_hint (⟨3, "", 0, 0⟩ : PrethinkSession) 9).1.prethink_hint = "" ∧
    (consume_prethink_hint (⟨3, "", 0, 0⟩ : PrethinkSession) 9).2.1 =
      (⟨3, "", 0, 0⟩ : PrethinkSession).prethink_hint :=
  c2_prethink_slot_amended ⟨3, "", 0, 0⟩ 3 5 "x" 9

/-! ## Emotion tagging (src/core/emotion.py) -/

/-- The six canonical emotions (`EMOTION_TYPES`). -/
def emotion_types : List String :=
  ["neutral", "happy", "sad", "angry", "shy", "surprised"]

/-- The `_EMOTION_ALIASES` table in source (dict insertion) order. -/
def emotion_aliases : List (String × String) :=
  [("neutral", "neutral"), ("calm", "neutral"), ("normal", "neutral"),
   ("平静", "neutral"), ("中性", "neutral"), ("普通", "neutral"),
   ("happy", "happy"), ("joy", "happy"), ("开心", "happy"), ("高兴", "happy"),
   ("愉快", "happy"), ("兴奋", "happy"),
   ("sad", "sad"), ("伤心", "sad"), ("难过", "sad"), ("失落", "sad"), ("沮丧", "sad"),
   ("angry", "angry"), ("mad", "angry"), ("生气", "angry"), ("愤怒", "angry"),
   ("恼火", "angry"),
   ("shy", "shy"), ("害羞", "shy"), ("脸红", "shy"), ("不好意思", "shy"),
   ("surprised", "surprised"), ("surprise", "surprised"), ("惊讶", "surprised"),
   ("震惊", "surprised"), ("吃惊", "surprised")]

/-- The character class of the tag-name capture group of `_EMO_TAG_RE`:
ASCII letters, underscore, or CJK in U+4E00..U+9FA5. -/
def isTagNameChar (c : Char) : Bool :=
  let n := c.toNat
  (97 ≤ n && n ≤ 122) || (65 ≤ n && n ≤ 90) || n == 95 ||
    (0x4e00 ≤ n && n ≤ 0x9fa5)

/-- ASCII lowering; CJK and punctuation are unchanged (this is how Python's
`str.lower` and `re.IGNORECASE` act on every character this module handles). -/
def lowerChar (c : Char) : Char :=
  if 65 ≤ c.toNat ∧ c.toNat ≤ 90 then Char.ofNat (c.toNat + 32) else c

/-- Case-insensitive literal keyword match returning the remaining input. -/
def matchKeyword : List Char → List Char → Option (List Char)
  | [], cs => some cs
  | _ :: _, [] => none
  | k :: ks, c :: cs => if lowerChar c = k then matchKeyword ks cs else none

/-- The keyword `emotion` of the regex alternation. -/
def kwEmotion : List Char := ['e', 'm', 'o', 't', 'i', 'o', 'n']

/-- The keyword `emo` of the regex alternation. -/
def kwEmo : List Char := ['e', 'm', 'o']

/-- The keyword `情绪` of the fullwidth-bracket form. -/
def kwQingxu : List Char := ['情', '绪']

/-- One alternative of `_EMO_TAG_RE` after its opening bracket: keyword,
optional whitespace, separator, optional whitespace, a non-empty tag-name
group (greedy, which is exact here because tag-name characters are never
whitespace or closing brackets), optional whitespace, closing bracket.
Returns the captured group and the input after the closing bracket. -/
def matchAfterKeyword (sepOk : Char → Bool) (closeC : Char) (kw : List Char)
    (cs : List Char) : Option (List Char × List Char) :=
  match matchKeyword kw cs with
  | none => none
  | some cs1 =>
    match cs1.dropWhile pyIsSpace with
    | [] => none
    | s :: cs3 =>
      if sepOk s then
        let cs4 := cs3.dropWhile pyIsSpace
        let grp := cs4.takeWhile isTagNameChar
        if grp = [] then none
        else
          match (cs4.dropWhile isTagNameChar).dropWhile pyIsSpace with
          | [] => none
          | c :: cs6 => if c = closeC then some (grp, cs6) else none
      else none

/-- Embedding of `_EMO_TAG_RE.match`: leading whitespace, one of the three
bracket forms (each trying keyword `emotion` before its shorter or localized
alternative, mirroring regex alternation with backtracking), then trailing
whitespace. Returns the raw captured group and the input after the match. -/
def emoTagMatch (cs : List Char) : Option (List Char × List Char) :=
  let body : Option (List Char × List Char) :=
    match cs.dropWhile pyIsSpace with
    | [] => none
    | c :: rest =>
      if c = '[' then
        (matchAfterKeyword (fun s => s == ':' || s == '=') ']' kwEmotion rest).orElse
          (fun _ => matchAfterKeyword (fun s => s == ':' || s == '=') ']' kwEmo rest)
      else if c = '<' then
        (matchAfterKeyword (fun s => s == ':' || s == '=') '>' kwEmotion rest).orElse
          (fun _ => matchAfterKeyword (fun s => s == ':' || s == '=') '>' kwEmo rest)
      else if c = '【' then
        (matchAfterKeyword (fun s => s == ':' || s == '：') '】' kwQingxu rest).orElse
          (fun _ => matchAfterKeyword (fun s => s == ':' || s == '：') '】' kwEmotion rest)
      else none
  body.map (fun gr => (gr.1, gr.2.dropWhile pyIsSpace))

/-- Embedding of `normalize_emotion`: strip and lower the value, then exact
alias lookup, then first alias key contained in the value, else the default. -/
def normalize_emotion (value : String) (default : String) : String :=
  if value = "" then default
  else
    let key := String.mk ((pyStripList value.data).map lowerChar)
    if key = "" then default
    else
      match (emotion_aliases.find? (fun kv => kv.1 == key)).map (fun kv => kv.2) with
      | some v => v
      | none =>
        match (emotion_aliases.find? (fun kv => isSubList kv.1.data key.data)).map
            (fun kv => kv.2) with
        | some v => v
        | none => default

/-- Embedding of `strip_leading_emotion_tag`: on a regex match, normalize the
captured group and return it with the text after the match; otherwise return
the text unchanged. -/
def strip_leading_emotion_tag (text : String) : Option String × String :=
  if text = "" then (none, "")
  else
    match emoTagMatch text.data with
    | none => (none, text)
    | some (raw, rem) =>
      (some (normalize_emotion (String.mk raw) "neutral"), String.mk rem)

lemma dropWhile_eq_self_head {α : Type} (p : α → Bool) (l : List α)
    (h : ∀ a ∈ l.head?, p a = false) : l.dropWhile p = l := by
  cases l with
  | nil => rfl
  | cons a t =>
    have ha : p a = false := h a (by simp)
    rw [List.dropWhile_cons, if_neg (by simp [ha])]

lemma takeWhile_append_stop {α : Type} (p : α → Bool) (l1 : List α) (y : α)
    (l2 : List α) (h1 : ∀ a ∈ l1, p a = true) (h2 : p y = false) :
    (l1 ++ y :: l2).takeWhile p = l1 := by
  induction l1 with
  | nil => simp [List.takeWhile_cons, h2]
  | cons a t ih =>
    have ha : p a = true := h1 a (List.mem_cons_self a t)
    rw [List.cons_append, List.takeWhile_cons, if_pos ha,
      ih (fun x hx => h1 x (List.mem_cons_of_mem a hx))]

lemma dropWhile_append_stop {α : Type} (p : α → Bool) (l1 : List α) (y : α)
    (l2 : List α) (h1 : ∀ a ∈ l1, p a = true) (h2 : p y = false) :
    (l1 ++ y :: l2).dropWhile p = y :: l2 := by
  induction l1 with
  | nil => simp [List.dropWhile_cons, h2]
  | cons a t ih =>
    have ha : p a = true := h1 a (List.mem_cons_self a t)
    rw [List.cons_append, List.dropWhile_cons, if_pos ha,
      ih (fun x hx => h1 x (List.mem_cons_of_mem a hx))]

lemma tagchar_not_space (c : Char) (h : isTagNameChar c = true) :
    pyIsSpace c = false := by
  by_contra h2
  rw [Bool.not_eq_false] at h2
  unfold isTagNameChar at h
  unfold pyIsSpace at h2
  simp only [Bool.or_eq_true, Bool.and_eq_true, decide_eq_true_eq, beq_iff_eq] at h h2
  omega

lemma pyStripList_eq_self (l : List Char) (h : ∀ a ∈ l, pyIsSpace a = false) :
    pyStripList l = l := by
  unfold pyStripList
  have h1 : l.dropWhile pyIsSpace = l := by
    cases l with
    | nil => rfl
    | cons a t => rw [List.dropWhile_cons, if_neg (by simp [h a (List.mem_cons_self a t)])]
  rw [h1]
  have h2 : l.reverse.dropWhile pyIsSpace = l.reverse := by
    cases hr : l.reverse with
    | nil => rfl
    | cons a t =>
      have ha : a ∈ l := by
        rw [← List.mem_reverse, hr]
        exact List.mem_cons_self a t
      rw [List.dropWhile_cons, if_neg (by simp [h a ha])]
  rw [h2, List.reverse_reverse]

lemma map_id_of {α : Type} (f : α → α) (l : List α) (h : ∀ a ∈ l, f a = a) :
    l.map f = l := by
  induction l with
  | nil => rfl
  | cons a t ih =>
    rw [List.map_cons, h a (List.mem_cons_self a t),
      ih (fun x hx => h x (List.mem_cons_of_mem a hx))]

lemma matchKeyword_self (kw cs : List Char) (h : ∀ c ∈ kw, lowerChar c = c) :
    matchKeyword kw (kw ++ cs) = some cs := by
  induction kw with
  | nil => rfl
  | cons k ks ih =>
    have hk : lowerChar k = k := h k (List.mem_cons_self k ks)
    dsimp only [matchKeyword, List.cons_append]
    rw [if_pos hk]
    exact ih (fun c hc => h c (List.mem_cons_of_mem k hc))

lemma matchAfterKeyword_template (sepOk : Char → Bool) (closeC sep : Char)
    (kw X rest : List Char)
    (hkw : ∀ ch ∈ kw, lowerChar ch = ch)
    (hsep : sepOk sep = true) (hsepWs : pyIsSpace sep = false)
    (hX : X ≠ []) (hXchars : ∀ ch ∈ X, isTagNameChar ch = true)
    (hcTag : isTagNameChar closeC = false) (hcWs : pyIsSpace closeC = false) :
    matchAfterKeyword sepOk closeC kw (kw ++ sep :: (X ++ closeC :: rest)) =
      some (X, rest) := by
  obtain ⟨x, X', rfl⟩ := List.exists_cons_of_ne_nil hX
  have hx_tag : isTagNameChar x = true := hXchars x (List.mem_cons_self x X')
  have hx_ws : pyIsSpace x = false := tagchar_not_space x hx_tag
  have hX'_tag : ∀ ch ∈ X', isTagNameChar ch = true :=
    fun ch hch => hXchars ch (List.mem_cons_of_mem x hch)
  unfold matchAfterKeyword
  rw [matchKeyword_self kw _ hkw]
  dsimp only
  rw [List.dropWhile_cons, if_neg (by simp [hsepWs])]
  dsimp only
  have e1 : List.dropWhile pyIsSpace (x :: (X' ++ closeC :: rest)) =
      x :: (X' ++ closeC :: rest) := by
    rw [List.dropWhile_cons, if_neg (by simp [hx_ws])]
  have e2 : List.takeWhile isTagNameChar (x :: (X' ++ closeC :: rest)) = x :: X' := by
    rw [List.takeWhile_cons, if_pos hx_tag,
      takeWhile_append_stop isTagNameChar X' closeC rest hX'_tag hcTag]
  have e3 : List.dropWhile isTagNameChar (x :: (X' ++ closeC :: rest)) =
      closeC :: rest := by
    rw [List.dropWhile_cons, if_pos hx_tag,
      dropWhile_append_stop isTagNameChar X' closeC rest hX'_tag hcTag]
  have e4 : List.dropWhile pyIsSpace (closeC :: rest) = closeC :: rest := by
    rw [List.dropWhile_cons, if_neg (by simp [hcWs])]
  rw [if_pos hsep, List.cons_append, e1, e2, e3, e4]
  rw [if_neg (by simp)]
  dsimp only
  rw [if_pos rfl]

lemma emoTagMatch_bracket (X rest : List Char) (hX : X ≠ [])
    (hXchars : ∀ ch ∈ X, isTagNameChar ch = true)
    (hrest : ∀ ch ∈ rest.head?, pyIsSpace ch = false) :
    emoTagMatch ('[' :: (kwEmotion ++ ':' :: (X ++ ']' :: (' ' :: rest)))) =
      some (X, rest) := by
  unfold emoTagMatch
  rw [List.dropWhile_cons, if_neg (by decide)]
  dsimp only
  rw [if_pos rfl,
    matchAfterKeyword_template (fun s => s == ':' || s == '=') ']' ':' kwEmotion X
      (' ' :: rest) (by decide) (by decide) (by decide) hX hXchars (by decide) (by decide)]
  dsimp only [Option.orElse, Option.map]
  rw [List.dropWhile_cons, if_pos (by decide), dropWhile_eq_self_head pyIsSpace rest hrest]

lemma emotion_aliases_wf :
    ∀ kv ∈ emotion_aliases, kv.1.data ≠ [] ∧
      (∀ ch ∈ kv.1.data, isTagNameChar ch = true ∧ lowerChar ch = ch) ∧
      kv.2 ∈ emotion_types := by
  decide

/-- C6 counterexample: with alias `happy` and `rest = " a"`, the text
`"[emotion:happy] " ++ " a"` is `"[emotion:happy]  a"`, and the parser returns
`(happy, "a")`, not `(happy, " a")`: the regex also swallows the leading
whitespace of `rest`, so the claim fails for a `rest` starting with
whitespace. -/
theorem c6_emotion_tag_roundtrip_cex :
    (strip_leading_emotion_tag "[emotion:happy]  a").2 ≠ " a" ∧
    strip_leading_emotion_tag "[emotion:happy]  a" = (some "happy", "a") := by
  decide

/-- C6 amended: for every alias X in the table and every string `rest` that
does not start with whitespace, `strip_leading_emotion_tag` on
`"[emotion:X] " ++ rest` returns the canonical emotion of X (its table value,
one of the six canonical emotions) and exactly `rest`; when `rest` starts with
whitespace, that whitespace is removed along with the tag. -/
theorem c6_emotion_tag_roundtrip (X c rest : String)
    (hX : (emotion_aliases.find? (fun kv => kv.1 == X)).map (fun kv => kv.2) = some c)
    (hrest : ∀ ch ∈ rest.data.head?, pyIsSpace ch = false) :
    strip_leading_emotion_tag ("[emotion:" ++ X ++ "] " ++ rest) = (some c, rest) ∧
    c ∈ emotion_types := by
  obtain ⟨kv, hfind, hc⟩ : ∃ kv, emotion_aliases.find? (fun kv => kv.1 == X) = some kv ∧
      kv.2 = c := by
    cases hf : emotion_aliases.find? (fun kv => kv.1 == X) with
    | none => rw [hf] at hX; simp at hX
    | some kv =>
      rw [hf] at hX
      simp only [Option.map_some'] at hX
      exact ⟨kv, rfl, by injection hX⟩
  have hkey : kv.1 = X := by
    have := List.find?_some hfind
    simpa using this
  have hwf := emotion_aliases_wf kv (List.mem_of_find?_eq_some hfind)
  rw [hkey, hc] at hwf
  obtain ⟨hXd_ne, hXd_chars, hcmem⟩ := hwf
  have hXd_tag : ∀ ch ∈ X.data, isTagNameChar ch = true :=
    fun ch hch => (hXd_chars ch hch).1
  have hXd_lower : ∀ ch ∈ X.data, lowerChar ch = ch :=
    fun ch hch => (hXd_chars ch hch).2
  have hdata : ("[emotion:" ++ X ++ "] " ++ rest).data =
      '[' :: (kwEmotion ++ ':' :: (X.data ++ ']' :: (' ' :: rest.data))) := by
    simp only [String.data_append]
    simp [kwEmotion, List.append_assoc]
  have hne : ("[emotion:" ++ X ++ "] " ++ rest) ≠ "" := by
    intro h0
    have h1 := congrArg String.data h0
    rw [hdata] at h1
    simp at h1
  have hXmk : String.mk X.data = X := by cases X; rfl
  have hrmk : String.mk rest.data = rest := by cases rest; rfl
  unfold strip_leading_emotion_tag
  rw [if_neg hne, hdata, emoTagMatch_bracket X.data rest.data hXd_ne hXd_tag hrest]
  dsimp only
  rw [hXmk, hrmk]
  refine ⟨?_, hcmem⟩
  have hXne : X ≠ "" := by
    intro h0
    apply hXd_ne
    rw [h0]
  have hkeymk : String.mk ((pyStripList X.data).map lowerChar) = X := by
    rw [pyStripList_eq_self X.data
        (fun ch hch => tagchar_not_space ch (hXd_tag ch hch)),
      map_id_of lowerChar X.data hXd_lower, hXmk]
  unfold normalize_emotion
  rw [if_neg hXne]
  dsimp only
  rw [hkeymk, if_neg hXne, hfind]
  simp only [Option.map_some']
  rw [hc]

theorem c6_emotion_tag_roundtrip_witness :
    ((emotion_aliases.find? (fun kv => kv.1 == "joy")).map (fun kv => kv.2) =
      some "happy") ∧
    (strip_leading_emotion_tag ("[emotion:" ++ "joy" ++ "] " ++ "rest") =
        (some "happy", "rest") ∧
      ("happy" : String) ∈ emotion_types) :=
  ⟨by decide, c6_emotion_tag_roundtrip "joy" "happy" "rest" (by decide)
    (by intro ch hch; simp at hch; subst hch; decide)⟩

/-! ## Turn orchestration history effects (`process_turn`, src/websocket_handler.py) -/

/-- Decision states of `_resolve_leading_emotion_prefix`. -/
inductive ResolveStatus where
  | resolved
  | needMore
  | noTag
  deriving DecidableEq, Repr

/-- Embedding of `_resolve_leading_emotion_prefix`: try the leading-tag parser,
then classify an incomplete-looking tag head as `needMore`, else `noTag` with
the original text. -/
def resolve_leading_emotion (text : String) : ResolveStatus × Option String × String :=
  if text = "" then (ResolveStatus.needMore, none, "")
  else
    match strip_leading_emotion_tag text with
    | (some emo, cleaned) => (ResolveStatus.resolved, some emo, cleaned)
    | (none, _) =>
      let strippedL := text.data.dropWhile pyIsSpace
      if strippedL = [] then (ResolveStatus.needMore, none, "")
      else if ("<emo".data.isPrefixOf strippedL || "<emotion".data.isPrefixOf strippedL) &&
          !(strippedL.contains '>') then (ResolveStatus.needMore, none, "")
      else if ("[emo".data.isPrefixOf strippedL || "[emotion".data.isPrefixOf strippedL) &&
          !(strippedL.contains ']') then (ResolveStatus.needMore, none, "")
      else if ("【情绪".data.isPrefixOf strippedL || "【emotion".data.isPrefixOf strippedL) &&
          !(strippedL.contains '】') then (ResolveStatus.needMore, none, "")
      else (ResolveStatus.noTag, none, text)

/-- The per-chunk accumulator state of the LLM loop in `process_turn`:
`awaiting_leading_emotion`, `pending_leading_prefix`, `leading_prefix_chunks`
and `full_response_text`. -/
structure LlmFold where
  awaiting : Bool := true
  pending : String := ""
  count : Nat := 0
  fullText : String := ""
  deriving DecidableEq, Repr

/-- Embedding of one iteration of the LLM loop of `process_turn`, restricted
to its effect on the accumulator: while awaiting the leading emotion tag,
grow the pending text and resolve it (forcing `noTag` after 6 chunks or
80 characters); once decided, append the resolved text, and afterwards append
chunks directly to `full_response_text`. -/
def fold_llm_chunk (st : LlmFold) (chunk : String) : LlmFold :=
  if st.awaiting then
    let pending := st.pending ++ chunk
    let count := st.count + 1
    let r := resolve_leading_emotion pending
    let statusText : ResolveStatus × String :=
      if r.1 = ResolveStatus.needMore ∧ (6 ≤ count ∨ 80 ≤ pending.length) then
        (ResolveStatus.noTag, pending)
      else (r.1, r.2.2)
    if statusText.1 = ResolveStatus.needMore then
      { st with pending := pending, count := count }
    else
      { awaiting := false, pending := "", count := count,
        fullText := st.fullText ++ statusText.2 }
  else { st with fullText := st.fullText ++ chunk }

/-- The `full_response_text` accumulated over a list of LLM stream chunks. -/
def full_response_text (chunks : List String) : String :=
  (chunks.foldl fold_llm_chunk {}).fullText

/-- One run of `process_turn` as seen by `chat_history`: the LLM chunks it
would receive, the loop-step index at which the session cancel event is
observed set (checked at the top of each iteration and again by the final
`if not session.is_cancelled` guard), and the step at which the turn body
raises (caught by the handler that sends an `error` frame and leaves history
untouched). -/
structure TurnInput where
  chunks : List String
  cancelAt : Option Nat := none
  raiseAt : Option Nat := none

/-- The effect of one `process_turn` call on `chat_history`: on an exception
or a set cancel signal the history is untouched; otherwise the accumulated
assistant text is appended through `append_history` when it is non-empty. -/
def process_turn_history (hist : List Msg) (inp : TurnInput) : List Msg :=
  match inp.raiseAt with
  | some _ => hist
  | none =>
    let n := match inp.cancelAt with
      | some c => min c inp.chunks.length
      | none => inp.chunks.length
    let t := full_response_text (inp.chunks.take n)
    if inp.cancelAt.isSome then hist
    else if t ≠ "" then append_history hist "assistant" t
    else hist

/-- C9: turn atomicity. If the cancel signal is set before `process_turn`
completes its LLM stream, or the turn body raises, `chat_history` is left
unchanged — the partially accumulated assistant text is not appended; and in
an uncancelled, non-raising turn an assistant message is appended exactly when
the accumulated response text is non-empty. -/
theorem c9_turn_atomicity (hist : List Msg) (inp : TurnInput) :
    ((inp.cancelAt ≠ none ∨ inp.raiseAt ≠ none) →
      process_turn_history hist inp = hist) ∧
    (inp.cancelAt = none → inp.raiseAt = none →
      process_turn_history hist inp =
        (if full_response_text inp.chunks = "" then hist
         else append_history hist "assistant" (full_response_text inp.chunks))) := by
  constructor
  · intro h
    unfold process_turn_history
    cases hr : inp.raiseAt with
    | some r => rfl
    | none =>
      cases hc : inp.cancelAt with
      | some c => simp
      | none =>
        rcases h with h1 | h2
        · exact absurd hc h1
        · exact absurd hr h2
  · intro hc hr
    unfold process_turn_history
    rw [hr, hc]
    dsimp only
    rw [List.take_length]
    by_cases ht : full_response_text inp.chunks = ""
    · simp [ht]
    · simp [ht]

theorem c9_turn_atomicity_witness :
    process_turn_history [] ⟨["hi"], some 0, none⟩ = [] :=
  (c9_turn_atomicity [] ⟨["hi"], some 0, none⟩).1 (Or.inl (by simp))
